import Mathlib

/-!
# ingress-modernizr: the manifest pipeline of `main.go`

A shallow embedding of `src/main.go`.  Pure parts of the program are Lean
functions; the parts that touch the outside (the temporary file, standard
output, the converter subprocess) pass an explicit `World` along.  The
libraries the program calls (`sigs.k8s.io/yaml`, the YAML-or-JSON decoder of
apimachinery, `os`, `os/exec`) are not part of the program: their behaviour
is a field of `Env`, and every theorem holds for every `Env` unless it says
otherwise.
-/

set_option autoImplicit false

namespace IngressModernizr

/-! ## Data model -/

/-- A value stored in a `map[string]interface{}` after decoding. -/
inductive Value where
  | null
  | bool (b : Bool)
  | int (n : Int)
  | float (bits : Nat)
  | str (s : String)
  | seq (xs : List Value)
  | map (kvs : List (String × Value))

/-- The Go type `map[string]interface{}`, as an association list. -/
abbrev Object := List (String × Value)

/-- The type `unstructured.Unstructured`: a wrapper around one decoded map. -/
structure Unstructured where
  Object : Object

/-- The method `(*Unstructured).GetKind`: the string stored under `"kind"`,
and `""` when the field is missing or does not hold a string. -/
def Unstructured.GetKind (u : Unstructured) : String :=
  match u.Object.lookup "kind" with
  | some (Value.str s) => s
  | _ => ""

/-! ## Writers -/

/-- An `io.Writer`: the chunks it accepted so far, one per successful `Write`
call, and the error (if any) that `Write` returns for the next chunk. -/
structure Writer where
  written : List String
  failure : List String → String → Option String

/-- One call `w.Write(data)`: the error it returns and the writer afterwards. -/
def Writer.Write (w : Writer) (data : String) : Option String × Writer :=
  match w.failure w.written data with
  | some err => (some err, w)
  | none => (none, { w with written := w.written ++ [data] })

/-- The call `fmt.Fprintln(w, s)`: one `Write` of `s` and a newline. -/
def Fprintln (w : Writer) (s : String) : Option String × Writer :=
  w.Write (s ++ "\n")

/-- A writer that accepts every chunk, such as a `bytes.Buffer`. -/
def bufferWriter : Writer := ⟨[], fun _ _ => none⟩

/-! ## Document codec -/

/-- The loop of `writeObjectsYAML` from index `i` on. -/
def writeObjectsFrom (Marshal : Object → Except String String) :
    Nat → List Unstructured → Writer → Option String × Writer
  | _, [], w => (none, w)
  | i, u :: rest, w =>
    match (if i > 0 then Fprintln w "---" else (none, w)) with
    | (some err, w1) => (some ("failed to write document separator: " ++ err), w1)
    | (none, w1) =>
      match Marshal u.Object with
      | Except.error err => (some ("failed to marshal object to YAML: " ++ err), w1)
      | Except.ok data =>
        match w1.Write data with
        | (some err, w2) => (some ("failed to write YAML object: " ++ err), w2)
        | (none, w2) => writeObjectsFrom Marshal (i + 1) rest w2

/-- The function `writeObjectsYAML`: the error returned (`none` for `nil`) and
the writer afterwards. -/
def writeObjectsYAML (Marshal : Object → Except String String)
    (objs : List Unstructured) (w : Writer) : Option String × Writer :=
  writeObjectsFrom Marshal 0 objs w

/-- The loop of `readAllObjects` over the results of the successive
`decoder.Decode` calls; the end of the list is `io.EOF`. -/
def readLoop : List (Except String Object) → List Unstructured →
    Except String (List Unstructured)
  | [], objs => Except.ok objs
  | Except.error err :: _, _ => Except.error ("failed to decode manifest: " ++ err)
  | Except.ok raw :: rest, objs =>
    if raw.length = 0 then readLoop rest objs
    else readLoop rest (objs ++ [⟨raw⟩])

/-- The function `readAllObjects`, given what the decoder returns on the input. -/
def readAllObjects (Decode : String → List (Except String Object)) (r : String) :
    Except String (List Unstructured) :=
  readLoop (Decode r) []

/-! ## The outside world -/

/-- What the program does to the outside, in the order it does it. -/
inductive Event where
  | openInput (path : String)
  | readInput
  | createTemp (path : String)
  | removeFile (path : String)
  | exec (bin : String) (args : List String)
  deriving DecidableEq

/-- The file system as the paths that exist, each with its contents. -/
abbrev Files := List (String × String)

/-- The state the program runs in. -/
structure World where
  files : Files
  stdin : String
  stdout : Writer
  stderr : List String
  trace : List Event

/-- What `cmd.Run()` reports: the error (`none` for exit status 0) and the two
captured streams; and the files that exist once the process has ended. -/
structure ExecResult where
  err : Option String
  stdout : String
  stderr : String
  files : Files

/-- The behaviour of everything the program calls but does not define. -/
structure Env where
  /-- The function `syaml.Marshal` on a decoded map. -/
  Marshal : Object → Except String String
  /-- The results of the successive `Decode` calls of a `YAMLOrJSONDecoder`
  on the given input, up to `io.EOF` (the end of the list). -/
  Decode : String → List (Except String Object)
  /-- The names `os.CreateTemp` tries, in turn. -/
  tempNames : List String
  /-- The error of a `Write` to the temporary file. -/
  tmpWriteErr : List String → String → Option String
  /-- The error of closing the temporary file. -/
  tmpCloseErr : Option String
  /-- The function `os.Getenv`. -/
  Getenv : String → String
  /-- Running `bin args...` to completion on the given file system. -/
  Run : String → List String → Files → ExecResult
  /-- The error of `os.Remove` on a path, given the files that exist. -/
  removeErr : Files → String → Option String

/-- Whether a file exists. -/
def Files.exist (fs : Files) (path : String) : Bool :=
  (fs.map Prod.fst).contains path

/-- The files left by a removal of `path` that succeeds. -/
def Files.remove (fs : Files) (path : String) : Files :=
  fs.filter (fun f => f.1 != path)

/-- The call `os.Remove(path)`: the error it returns and the files afterwards;
a removal that fails leaves the files as they are. -/
def Remove (removeErr : Files → String → Option String) (fs : Files) (path : String) :
    Option String × Files :=
  match removeErr fs path with
  | some err => (some err, fs)
  | none => (none, fs.remove path)

/-- Replace the contents of `path`. -/
def Files.setContents (fs : Files) (path : String) (data : String) : Files :=
  fs.map (fun f => if f.1 = path then (f.1, data) else f)

/-- The call `os.CreateTemp`: the first candidate name that does not exist yet
(the file is opened with `O_EXCL`), or no name at all. -/
def CreateTemp (names : List String) (fs : Files) : Option String :=
  names.find? (fun n => !fs.exist n)

/-- Append to standard error one line of `log.Printf`, or the usage text (the
message of a fatal exit is carried by `Exit` instead). -/
def World.logf (w : World) (msg : String) : World :=
  { w with stderr := w.stderr ++ [msg] }

/-- Record one event. -/
def World.emit (w : World) (e : Event) : World :=
  { w with trace := w.trace ++ [e] }

/-! ## Converter delegate -/

/-- Lines 98 to 101 of `runIngress2Gateway`: a leading `print` is dropped. -/
def normalizeExtraArgs (extraArgs : List String) : List String :=
  if extraArgs.length > 0 ∧ extraArgs.head? = some "print" then extraArgs.drop 1
  else extraArgs

/-- Lines 98 to 108 of `runIngress2Gateway`: the argument list of the converter. -/
def converterArgs (tmpPath : String) (extraArgs : List String) : List String :=
  ["print", "--input-file", tmpPath] ++ normalizeExtraArgs extraArgs

/-- Lines 84 to 126 of `runIngress2Gateway`: all that happens between the
registration of the deferred `os.Remove` and its execution. -/
def stageAndConvert (env : Env) (allOriginal : List Unstructured)
    (extraArgs : List String) (tmpPath : String) (w : World) :
    Except String (List Unstructured) × World :=
  match writeObjectsYAML env.Marshal allOriginal ⟨[], env.tmpWriteErr⟩ with
  | (some err, tmpFile) =>
    (Except.error ("failed to write manifests to temp file: " ++ err),
      { w with files := w.files.setContents tmpPath (String.join tmpFile.written) })
  | (none, tmpFile) =>
    let w1 := { w with files := w.files.setContents tmpPath (String.join tmpFile.written) }
    match env.tmpCloseErr with
    | some err => (Except.error ("failed to close temp file: " ++ err), w1)
    | none =>
      let bin := if env.Getenv "INGRESS2GATEWAY_BIN" = "" then "ingress2gateway"
        else env.Getenv "INGRESS2GATEWAY_BIN"
      let args := converterArgs tmpPath extraArgs
      let r := env.Run bin args w1.files
      let w2 := { w1 with files := r.files }.emit (Event.exec bin args)
      match r.err with
      | some err =>
        (Except.error ("ingress2gateway failed: " ++ err ++ "\nstderr:\n" ++ r.stderr), w2)
      | none =>
        match readAllObjects env.Decode r.stdout with
        | Except.error err =>
          (Except.error ("failed to parse ingress2gateway output: " ++ err), w2)
        | Except.ok converted => (Except.ok converted, w2)

/-- The function `runIngress2Gateway`.  The deferred function of lines 80 to
82 runs last on every way out of `stageAndConvert` and discards the error of
`os.Remove`. -/
def runIngress2Gateway (env : Env) (allOriginal : List Unstructured)
    (extraArgs : List String) (w : World) : Except String (List Unstructured) × World :=
  if allOriginal.length = 0 then (Except.ok [], w)
  else
    match CreateTemp env.tempNames w.files with
    | none => (Except.error "failed to create temp file: no free name", w)
    | some tmpPath =>
      let w1 := { w with files := (tmpPath, "") :: w.files }.emit (Event.createTemp tmpPath)
      let (res, w2) := stageAndConvert env allOriginal extraArgs tmpPath w1
      (res, { w2 with files := (Remove env.removeErr w2.files tmpPath).2 }.emit
        (Event.removeFile tmpPath))

/-! ## Command line

The program parses its command line with the standard `flag` package; what
follows is `FlagSet.Parse` and `FlagSet.parseOne` for the three flags that
`main` defines (`input-file`, a string; `help` and `version`, booleans). -/

/-- The values of the three flags `main` defines. -/
structure Flags where
  inputFile : String
  help : Bool
  version : Bool
  deriving DecidableEq

/-- How `flag.Parse()` ends. -/
inductive ParseOutcome where
  /-- Parsing stopped without error; `args` is what `flag.Args()` returns. -/
  | parsed (flags : Flags) (args : List String)
  /-- The error `flag.ErrHelp`: usage is printed and the process exits with status 0. -/
  | helpRequested
  /-- Any other error: the message and usage are printed and the process
  exits with status 2. -/
  | failed (msg : String)
  deriving DecidableEq

/-- The function `strconv.ParseBool`. -/
def ParseBool (s : String) : Option Bool :=
  if s ∈ ["1", "t", "T", "TRUE", "true", "True"] then some true
  else if s ∈ ["0", "f", "F", "FALSE", "false", "False"] then some false
  else none

/-- The loop of `parseOne` that looks for `=` from the second character of the
flag name on: the name, and the value when there is one. -/
def splitFlagName (name : List Char) : String × Option String :=
  match name with
  | [] => ("", none)
  | c :: cs =>
    match cs.span (fun x => x != '=') with
    | (pre, _ :: value) => (String.mk (c :: pre), some (String.mk value))
    | (pre, []) => (String.mk (c :: pre), none)

/-- The loop of `FlagSet.Parse` around `FlagSet.parseOne`, with the default
`ExitOnError` handling folded into the outcome. -/
def Parse : Flags → List String → ParseOutcome
  | fl, [] => ParseOutcome.parsed fl []
  | fl, s :: rest =>
    match s.data with
    | '-' :: c :: cs =>
      if c = '-' ∧ cs = [] then ParseOutcome.parsed fl rest
      else
        let name := if c = '-' then cs else c :: cs
        if name.head? = none ∨ name.head? = some '-' ∨ name.head? = some '=' then
          ParseOutcome.failed ("bad flag syntax: " ++ s)
        else
          match splitFlagName name with
          | ("help", value) =>
            match value with
            | none => Parse { fl with help := true } rest
            | some v =>
              match ParseBool v with
              | some b => Parse { fl with help := b } rest
              | none => ParseOutcome.failed ("invalid boolean value for -help: " ++ v)
          | ("version", value) =>
            match value with
            | none => Parse { fl with version := true } rest
            | some v =>
              match ParseBool v with
              | some b => Parse { fl with version := b } rest
              | none => ParseOutcome.failed ("invalid boolean value for -version: " ++ v)
          | ("input-file", value) =>
            match value with
            | some v => Parse { fl with inputFile := v } rest
            | none =>
              match rest with
              | v :: rest2 => Parse { fl with inputFile := v } rest2
              | [] => ParseOutcome.failed "flag needs an argument: -input-file"
          | (other, _) =>
            if other = "h" then ParseOutcome.helpRequested
            else ParseOutcome.failed ("flag provided but not defined: -" ++ other)
    | _ => ParseOutcome.parsed fl (s :: rest)

/-- The call `strings.HasPrefix`. -/
def HasPrefix (s pre : String) : Bool :=
  pre.data.isPrefixOf s.data

/-- The test of lines 185 to 190 on one forwarded argument. -/
def isProviderSelector (arg : String) : Bool :=
  HasPrefix arg "--providers=" || arg = "--providers"

/-- The loop of lines 184 to 190 of `main`. -/
def hasProviders (ingress2gatewayArgs : List String) : Bool :=
  ingress2gatewayArgs.any isProviderSelector

/-! ## Pipeline orchestrator -/

/-- How the process ends. -/
inductive Exit where
  /-- The function `main` returned: status 0. -/
  | ok
  /-- A call of `log.Fatalf`: the message is logged and the status is 1. -/
  | fatal (msg : String)
  /-- The flag package ended the process itself: status 2. -/
  | flagError (msg : String)
  deriving DecidableEq

/-- The message of the `log.Fatalf` of line 192. -/
def providersRequired : String :=
  "ingress-modernizr: error: --providers flag is required for ingress2gateway (e.g., --providers=ingress-nginx)"

/-- The loop of lines 226 to 232 of `main`. -/
def hasIngress (originalObjects : List Unstructured) : Bool :=
  originalObjects.any (fun obj => obj.GetKind = "Ingress")

/-- The loop of lines 254 to 262 of `main`, started from `final`. -/
def keepOthers (final : List Unstructured) (originalObjects : List Unstructured) :
    List Unstructured :=
  originalObjects.foldl
    (fun acc obj => if obj.GetKind = "Ingress" then acc else acc ++ [obj]) final

/-- Lines 254 to 264 of `main`: the final manifest set. -/
def finalSet (originalObjects convertedObjects : List Unstructured) : List Unstructured :=
  keepOthers [] originalObjects ++ convertedObjects

/-- Write a set to standard output, as the two call sites of lines 237 and 267 do. -/
def emitObjects (env : Env) (objs : List Unstructured) (w : World) : Exit × World :=
  match writeObjectsYAML env.Marshal objs w.stdout with
  | (some err, out) =>
    (Exit.fatal ("ingress-modernizr: failed to write output manifests: " ++ err),
      { w with stdout := out })
  | (none, out) => (Exit.ok, { w with stdout := out })

/-- Lines 217 to 269 of `main`: what happens once the input is decoded. -/
def pipeline (env : Env) (fl : Flags) (originalObjects : List Unstructured)
    (ingress2gatewayArgs : List String) (w : World) : Exit × World :=
  if originalObjects.length = 0 then
    (Exit.ok,
      if fl.inputFile ≠ "" then
        w.logf ("ingress-modernizr: warning: no objects found in " ++ fl.inputFile)
      else w)
  else if ¬ hasIngress originalObjects then
    emitObjects env originalObjects
      (w.logf "ingress-modernizr: warning: no Ingress resources found in input")
  else
    match runIngress2Gateway env originalObjects ingress2gatewayArgs w with
    | (Except.error err, w1) => (Exit.fatal ("ingress-modernizr: " ++ err), w1)
    | (Except.ok convertedObjects, w1) =>
      emitObjects env (finalSet originalObjects convertedObjects) w1

/-- Lines 195 to 215 of `main`: the input is opened and decoded. -/
def readInput (env : Env) (fl : Flags) (w : World) :
    Except String (List Unstructured) × World :=
  if fl.inputFile ≠ "" then
    let w1 := w.emit (Event.openInput fl.inputFile)
    match w1.files.lookup fl.inputFile with
    | none =>
      (Except.error ("ingress-modernizr: failed to open input file " ++ fl.inputFile), w1)
    | some data =>
      match readAllObjects env.Decode data with
      | Except.error err =>
        (Except.error ("ingress-modernizr: failed to read input manifests from " ++
          fl.inputFile ++ ": " ++ err), w1.emit Event.readInput)
      | Except.ok objs => (Except.ok objs, w1.emit Event.readInput)
  else
    match readAllObjects env.Decode w.stdin with
    | Except.error err =>
      (Except.error ("ingress-modernizr: failed to read input manifests from stdin: " ++ err),
        w.emit Event.readInput)
    | Except.ok objs => (Except.ok objs, w.emit Event.readInput)

/-- Lines 170 to 269 of `main`: all that follows `flag.Parse()`. -/
def run (env : Env) (fl : Flags) (ingress2gatewayArgs : List String) (w : World) :
    Exit × World :=
  if fl.help then (Exit.ok, w.logf "usage")
  else if fl.version then (Exit.ok, { w with stdout := (Fprintln w.stdout "ingress-modernizr v1.0.0").2 })
  else if ¬ hasProviders ingress2gatewayArgs then (Exit.fatal providersRequired, w)
  else
    match readInput env fl w with
    | (Except.error err, w1) => (Exit.fatal err, w1)
    | (Except.ok originalObjects, w1) => pipeline env fl originalObjects ingress2gatewayArgs w1

/-- The function `main` on the arguments that follow the program name. -/
def main (env : Env) (argv : List String) (w : World) : Exit × World :=
  match Parse ⟨"", false, false⟩ argv with
  | ParseOutcome.failed msg => (Exit.flagError msg, w.logf "usage")
  | ParseOutcome.helpRequested => (Exit.ok, w.logf "usage")
  | ParseOutcome.parsed fl ingress2gatewayArgs => run env fl ingress2gatewayArgs w

/-! ## Reference definitions used in the statements -/

/-- The layout the encoder is specified to produce from the marshalled
documents: the first one, then for each later one the separator line
followed by the document. -/
def separated : List String → List String
  | [] => []
  | m :: rest => m :: rest.flatMap (fun x => ["---\n", x])

/-- The documents of a set whose kind is not `Ingress`, in their order. -/
def nonIngress (objs : List Unstructured) : List Unstructured :=
  objs.filter (fun u => u.GetKind ≠ "Ingress")

/-- The bytes that `writeObjectsYAML` writes for a set into an empty buffer. -/
def encoded (env : Env) (objs : List Unstructured) : String :=
  String.join (writeObjectsYAML env.Marshal objs bufferWriter).2.written

/-- What the round trip needs from the YAML library, in terms of the library
alone: an empty input holds no document; a marshalled map that is not empty
decodes to that map and nothing else; and in a stream, the separator line
after such a marshalled map ends it, and decoding goes on with the marshalled
maps that follow. -/
structure DecodesMarshalled (env : Env) : Prop where
  empty : env.Decode "" = []
  single : ∀ (o : Object) (m : String), o.length ≠ 0 → env.Marshal o = Except.ok m →
    env.Decode m = [Except.ok o]
  stream : ∀ (o : Object) (m : String) (os : List Object) (ms : List String),
    o.length ≠ 0 → env.Marshal o = Except.ok m → os ≠ [] → (∀ x ∈ os, x.length ≠ 0) →
    os.map env.Marshal = ms.map Except.ok →
    env.Decode (m ++ "---\n" ++ String.join (separated ms)) =
      Except.ok o :: env.Decode (String.join (separated ms))

/-! ## A codec for flat maps of strings

A small marshaller and a decoder that parses what it is given, for the
documents that are flat maps from keys to strings: one line per entry, the
key, a colon, a blank and the value.  It gives the examples of the round trip
an `Env` whose decoder reads the bytes. -/

/-- One entry as a line, when the value is a string and neither the key nor
the value would break the line. -/
def lineOfEntry : String × Value → Option (List Char)
  | (k, Value.str v) =>
    if k.data.all (fun c => c != ':' && c != '\n') && v.data.all (fun c => c != '\n') then
      some (k.data ++ ':' :: ' ' :: v.data ++ ['\n'])
    else none
  | _ => none

/-- The lines of a map, entry by entry. -/
def linesOfObject : Object → Option (List Char)
  | [] => some []
  | e :: es =>
    match lineOfEntry e, linesOfObject es with
    | some l, some ls => some (l ++ ls)
    | _, _ => none

/-- Marshal a flat map of strings; any other map is refused. -/
def lineMarshal (o : Object) : Except String String :=
  match linesOfObject o with
  | some cs => Except.ok (String.mk cs)
  | none => Except.error "unsupported value"

/-- Parse one line into an entry. -/
def entryOfLine (line : List Char) : Option (String × Value) :=
  match line.span (fun c => c != ':') with
  | (k, ':' :: ' ' :: v) => some (String.mk k, Value.str (String.mk v))
  | _ => none

/-- Read a stream character by character: `line` is the line being read, `doc`
the entries of the document being read.  A line `---` ends the document. -/
def lineScan : List Char → List Char → Object → List (Except String Object)
  | [], line, doc =>
    if line.length ≠ 0 then [Except.error "unterminated line"]
    else if doc.length = 0 then []
    else [Except.ok doc]
  | c :: cs, line, doc =>
    if c = '\n' then
      if line = ['-', '-', '-'] then Except.ok doc :: lineScan cs [] []
      else
        match entryOfLine line with
        | some e => lineScan cs [] (doc ++ [e])
        | none => [Except.error "not a key and a value"]
    else lineScan cs (line ++ [c]) doc

/-- Decode a stream of flat maps of strings. -/
def lineDecode (r : String) : List (Except String Object) :=
  lineScan r.data [] []

/-! ## Example inputs -/

/-- A ConfigMap manifest. -/
def configMapDoc : Unstructured :=
  ⟨[("apiVersion", Value.str "v1"), ("kind", Value.str "ConfigMap")]⟩

/-- An Ingress manifest. -/
def ingressDoc : Unstructured :=
  ⟨[("apiVersion", Value.str "networking.k8s.io/v1"), ("kind", Value.str "Ingress")]⟩

/-- An HTTPRoute manifest, as the converter returns. -/
def httpRouteDoc : Unstructured :=
  ⟨[("apiVersion", Value.str "gateway.networking.k8s.io/v1"), ("kind", Value.str "HTTPRoute")]⟩

/-- A document whose map is empty. -/
def emptyDoc : Unstructured := ⟨[]⟩

/-- A set of collaborators for the examples: a document marshals to one line
naming its kind (an empty map to a pair of braces, as in flow style), the
decoder knows the streams the examples use, one temporary name is on offer,
and the converter answers with one HTTPRoute. -/
def stubEnv : Env where
  Marshal := fun o =>
    if o.length = 0 then Except.ok "\x7b\x7d\n"
    else Except.ok ("kind: " ++ Unstructured.GetKind ⟨o⟩ ++ "\n")
  Decode := fun r =>
    if r = "\x7b\x7d\n" then [Except.ok []]
    else if r = "kind: HTTPRoute\n" then [Except.ok httpRouteDoc.Object]
    else if r = "kind: ConfigMap\n---\nkind: Ingress\n" then
      [Except.ok configMapDoc.Object, Except.ok ingressDoc.Object]
    else if r = "kind: ConfigMap\n" then [Except.ok configMapDoc.Object]
    else []
  tempNames := ["/tmp/ingress-modernizr-1.yaml"]
  tmpWriteErr := fun _ _ => none
  tmpCloseErr := none
  Getenv := fun _ => ""
  Run := fun _ _ fs => ⟨none, "kind: HTTPRoute\n", "", fs⟩
  removeErr := fun _ _ => none

/-- The collaborators of `stubEnv`, except that `os.Remove` fails. -/
def removeFailsEnv : Env :=
  { stubEnv with removeErr := fun _ _ => some "permission denied" }

/-- The collaborators of `stubEnv`, except that the converter writes a file. -/
def writingConverterEnv : Env :=
  { stubEnv with
    Run := fun _ _ fs => ⟨none, "kind: HTTPRoute\n", "", ("ingress2gateway.log", "") :: fs⟩ }

/-- The collaborators of `stubEnv`, except that the converter exits with a
status that is not zero. -/
def failingConverterEnv : Env :=
  { stubEnv with Run := fun _ _ fs => ⟨some "exit status 1", "", "no provider", fs⟩ }

/-- The collaborators of `stubEnv`, with the codec for flat maps of strings. -/
def lineCodecEnv : Env :=
  { stubEnv with Marshal := lineMarshal, Decode := lineDecode }

/-- A world for the examples: one manifest file, nothing written yet. -/
def stubWorld : World where
  files := [("manifests.yaml", "kind: ConfigMap\n---\nkind: Ingress\n")]
  stdin := "kind: ConfigMap\n"
  stdout := bufferWriter
  stderr := []
  trace := []

/-! ## Encoder layout -/

theorem writeObjectsFrom_succ (Marshal : Object → Except String String)
    (objs : List Unstructured) (ms : List String)
    (hm : objs.map (fun u => Marshal u.Object) = ms.map Except.ok) :
    ∀ (i : Nat) (w : Writer), (∀ pre d, w.failure pre d = none) →
      writeObjectsFrom Marshal (i + 1) objs w =
        (none, { w with written := w.written ++ ms.flatMap (fun x => ["---\n", x]) }) := by
  induction objs generalizing ms with
  | nil =>
    intro i w _
    cases ms with
    | nil => simp [writeObjectsFrom]
    | cons m ms => simp at hm
  | cons u rest ih =>
    intro i w hw
    cases ms with
    | nil => simp at hm
    | cons m ms =>
      simp only [List.map_cons, List.cons.injEq] at hm
      obtain ⟨hu, hrest⟩ := hm
      have h1 := ih ms hrest (i + 1)
        { w with written := w.written ++ ["---\n"] ++ [m] } hw
      simp only [writeObjectsFrom, Fprintln, Writer.Write, hw, hu]
      simp only [Nat.succ_pos, gt_iff_lt, if_true]
      rw [show ("---" ++ "\n" : String) = "---\n" from rfl]
      simp only [hw]
      rw [h1]
      simp [List.flatMap_cons]

theorem writeObjectsFrom_zero (Marshal : Object → Except String String)
    (objs : List Unstructured) (ms : List String)
    (hm : objs.map (fun u => Marshal u.Object) = ms.map Except.ok)
    (w : Writer) (hw : ∀ pre d, w.failure pre d = none) :
    writeObjectsFrom Marshal 0 objs w =
      (none, { w with written := w.written ++ separated ms }) := by
  cases objs with
  | nil =>
    cases ms with
    | nil => simp [writeObjectsFrom, separated]
    | cons m ms => simp at hm
  | cons u rest =>
    cases ms with
    | nil => simp at hm
    | cons m ms =>
      simp only [List.map_cons, List.cons.injEq] at hm
      obtain ⟨hu, hrest⟩ := hm
      have h1 := writeObjectsFrom_succ Marshal rest ms hrest 0
        { w with written := w.written ++ [m] } hw
      simp only [writeObjectsFrom, Writer.Write, hw, hu]
      simp only [gt_iff_lt, lt_self_iff_false, if_false, hw]
      rw [h1]
      simp [separated]

theorem separated_length (ms : List String) :
    (separated ms).length = ms.length + (ms.length - 1) := by
  cases ms with
  | nil => rfl
  | cons m rest =>
    have h : ∀ l : List String, (l.flatMap (fun x => ["---\n", x])).length = 2 * l.length := by
      intro l
      induction l with
      | nil => rfl
      | cons a l ih => simp [List.flatMap_cons, ih]; omega
    simp [separated, h]
    omega

/-- C10: when every document serializes and the sink accepts every write,
`writeObjectsYAML` writes the first marshalled document and then, for each
later document, the line `---` followed by its marshalled form: `n - 1`
separators for `n` documents, none for one document, nothing for none. -/
theorem writeObjectsYAML_layout (Marshal : Object → Except String String)
    (objs : List Unstructured) (ms : List String) (w : Writer)
    (hw : ∀ pre d, w.failure pre d = none)
    (hm : objs.map (fun u => Marshal u.Object) = ms.map Except.ok) :
    writeObjectsYAML Marshal objs w =
        (none, { w with written := w.written ++ separated ms }) ∧
      (separated ms).length = objs.length + (objs.length - 1) ∧
      (∀ m, ms = [m] → (writeObjectsYAML Marshal objs w).2.written = w.written ++ [m]) ∧
      (ms = [] → (writeObjectsYAML Marshal objs w).2.written = w.written) := by
  have hlen : objs.length = ms.length := by
    have := congrArg List.length hm
    simpa using this
  have h := writeObjectsFrom_zero Marshal objs ms hm w hw
  refine ⟨h, ?_, ?_, ?_⟩
  · rw [separated_length, hlen]
  · intro m hms
    rw [writeObjectsYAML, h, hms]
    rfl
  · intro hms
    rw [writeObjectsYAML, h, hms]
    simp [separated]

/-- Three documents are written with two separators. -/
theorem writeObjectsYAML_layout_witness :
    writeObjectsYAML (fun o => Except.ok (if o.length = 0 then "none\n" else "some\n"))
        [configMapDoc, emptyDoc, ingressDoc] bufferWriter =
      (none, { bufferWriter with
        written := ["some\n", "---\n", "none\n", "---\n", "some\n"] }) :=
  (writeObjectsYAML_layout (fun o => Except.ok (if o.length = 0 then "none\n" else "some\n"))
    [configMapDoc, emptyDoc, ingressDoc] ["some\n", "none\n", "some\n"] bufferWriter
    (fun _ _ => rfl) rfl).1

/-! ## Forwarded arguments -/

theorem normalizeExtraArgs_print (rest : List String) :
    normalizeExtraArgs ("print" :: rest) = rest := by
  simp [normalizeExtraArgs]

theorem normalizeExtraArgs_other (a : List String) (h : a.head? ≠ some "print") :
    normalizeExtraArgs a = a := by
  simp [normalizeExtraArgs, h]

theorem stageAndConvert_trace (env : Env) (allOriginal : List Unstructured)
    (extraArgs : List String) (tmpPath : String) (w : World)
    (hwr : (writeObjectsYAML env.Marshal allOriginal ⟨[], env.tmpWriteErr⟩).1 = none)
    (hcl : env.tmpCloseErr = none) :
    (stageAndConvert env allOriginal extraArgs tmpPath w).2.trace =
      w.trace ++ [Event.exec
        (if env.Getenv "INGRESS2GATEWAY_BIN" = "" then "ingress2gateway"
          else env.Getenv "INGRESS2GATEWAY_BIN")
        (converterArgs tmpPath extraArgs)] := by
  unfold stageAndConvert
  rcases hres : writeObjectsYAML env.Marshal allOriginal ⟨[], env.tmpWriteErr⟩ with ⟨e, f⟩
  rw [hres] at hwr
  simp only at hwr
  subst hwr
  simp only [hcl]
  cases hr : (env.Run (if env.Getenv "INGRESS2GATEWAY_BIN" = "" then "ingress2gateway"
      else env.Getenv "INGRESS2GATEWAY_BIN") (converterArgs tmpPath extraArgs)
      (w.files.setContents tmpPath (String.join f.written))).err with
  | some err => simp [hr, World.emit]
  | none =>
    simp only [hr]
    cases readAllObjects env.Decode (env.Run (if env.Getenv "INGRESS2GATEWAY_BIN" = "" then
        "ingress2gateway" else env.Getenv "INGRESS2GATEWAY_BIN")
        (converterArgs tmpPath extraArgs)
        (w.files.setContents tmpPath (String.join f.written))).stdout with
    | error err => simp [World.emit]
    | ok converted => simp [World.emit]

/-- C6: once the manifests are staged at `p` (the set is not empty, the
temporary file is created, written and closed), `runIngress2Gateway` starts
the converter exactly once, with `print --input-file p` followed by the
forwarded arguments, of which only a leading `print` is dropped. -/
theorem runIngress2Gateway_converter_args (env : Env) (allOriginal : List Unstructured)
    (a : List String) (w : World) (p : String)
    (hne : allOriginal.length ≠ 0)
    (hp : CreateTemp env.tempNames w.files = some p)
    (hwr : (writeObjectsYAML env.Marshal allOriginal ⟨[], env.tmpWriteErr⟩).1 = none)
    (hcl : env.tmpCloseErr = none) :
    (runIngress2Gateway env allOriginal a w).2.trace =
        w.trace ++ [Event.createTemp p,
          Event.exec
            (if env.Getenv "INGRESS2GATEWAY_BIN" = "" then "ingress2gateway"
              else env.Getenv "INGRESS2GATEWAY_BIN")
            (["print", "--input-file", p] ++
              (if a.head? = some "print" then a.tail else a)),
          Event.removeFile p] := by
  have hargs : converterArgs p a =
      ["print", "--input-file", p] ++ (if a.head? = some "print" then a.tail else a) := by
    unfold converterArgs
    congr 1
    cases a with
    | nil => simp [normalizeExtraArgs]
    | cons x t =>
      by_cases hx : x = "print"
      · subst hx
        simp [normalizeExtraArgs_print]
      · rw [normalizeExtraArgs_other _ (by simpa using hx)]
        simp [hx]
  have ht := stageAndConvert_trace env allOriginal a p
    ({ w with files := (p, "") :: w.files }.emit (Event.createTemp p)) hwr hcl
  unfold runIngress2Gateway
  simp only [hne, if_false, hp]
  rw [← hargs]
  simp only [World.emit] at ht ⊢
  rw [ht]
  simp

/-- A later `print` and a token such as `--output=print` are kept. -/
theorem runIngress2Gateway_converter_args_witness :
    (runIngress2Gateway stubEnv [configMapDoc, ingressDoc]
        ["print", "--providers=ingress-nginx", "print", "--output=print"] stubWorld).2.trace =
      [Event.createTemp "/tmp/ingress-modernizr-1.yaml",
        Event.exec "ingress2gateway"
          ["print", "--input-file", "/tmp/ingress-modernizr-1.yaml",
            "--providers=ingress-nginx", "print", "--output=print"],
        Event.removeFile "/tmp/ingress-modernizr-1.yaml"] :=
  runIngress2Gateway_converter_args stubEnv [configMapDoc, ingressDoc]
    ["print", "--providers=ingress-nginx", "print", "--output=print"] stubWorld
    "/tmp/ingress-modernizr-1.yaml" (by decide) (by decide) rfl rfl

/-- C7, as stated, fails: two leading `print` tokens are normalized to one,
which a second normalization removes, and the converter receives the
sub-action twice. -/
theorem normalizeExtraArgs_not_idempotent :
    normalizeExtraArgs ["print", "print"] = ["print"] ∧
      normalizeExtraArgs (normalizeExtraArgs ["print", "print"]) = [] ∧
      normalizeExtraArgs (normalizeExtraArgs ["print", "print"]) ≠
        normalizeExtraArgs ["print", "print"] ∧
      converterArgs "t" ["print", "print"] = ["print", "--input-file", "t", "print"] := by
  decide

/-- C7, amended: normalization drops one leading `print`; normalizing again
changes nothing, and the normalized list does not begin with `print`,
exactly when the arguments do not begin with two `print` tokens. -/
theorem normalizeExtraArgs_idempotent_iff (a : List String) :
    (normalizeExtraArgs (normalizeExtraArgs a) = normalizeExtraArgs a ↔
        ¬ ∃ rest, a = "print" :: "print" :: rest) ∧
      ((normalizeExtraArgs a).head? ≠ some "print" ↔
        ¬ ∃ rest, a = "print" :: "print" :: rest) := by
  cases a with
  | nil => simp [normalizeExtraArgs]
  | cons x t =>
    by_cases hx : x = "print"
    · subst hx
      rw [normalizeExtraArgs_print]
      cases t with
      | nil => simp [normalizeExtraArgs]
      | cons y r =>
        by_cases hy : y = "print"
        · subst hy
          rw [normalizeExtraArgs_print]
          constructor
          · constructor
            · intro h
              have := congrArg List.length h
              simp at this
            · intro h
              exact absurd ⟨r, rfl⟩ h
          · simp
        · rw [normalizeExtraArgs_other _ (by simpa using hy)]
          simp [hy]
    · have h1 : normalizeExtraArgs (x :: t) = x :: t :=
        normalizeExtraArgs_other _ (by simpa using hx)
      rw [h1, h1]
      simp [hx]

/-! ## Recombination -/

theorem keepOthers_eq (final originalObjects : List Unstructured) :
    keepOthers final originalObjects = final ++ nonIngress originalObjects := by
  induction originalObjects generalizing final with
  | nil => simp [keepOthers, nonIngress]
  | cons u rest ih =>
    have hstep : keepOthers final (u :: rest) =
        keepOthers (if u.GetKind = "Ingress" then final else final ++ [u]) rest := rfl
    rw [hstep, ih]
    by_cases hk : u.GetKind = "Ingress"
    · simp [nonIngress, hk]
    · simp [nonIngress, hk]

theorem finalSet_eq (originalObjects convertedObjects : List Unstructured) :
    finalSet originalObjects convertedObjects =
      nonIngress originalObjects ++ convertedObjects := by
  simp [finalSet, keepOthers_eq]

/-- C1: when the original set holds an Ingress document and the delegate
returns the converted set `C`, the pipeline writes to standard output the
original documents that are not Ingress, in their order, followed by `C`. -/
theorem pipeline_emits_kept_then_converted (env : Env) (fl : Flags)
    (originalObjects : List Unstructured) (args : List String) (w : World)
    (C : List Unstructured)
    (hing : ∃ u ∈ originalObjects, u.GetKind = "Ingress")
    (hrun : (runIngress2Gateway env originalObjects args w).1 = Except.ok C) :
    pipeline env fl originalObjects args w =
      emitObjects env (nonIngress originalObjects ++ C)
        (runIngress2Gateway env originalObjects args w).2 := by
  obtain ⟨u, hu, hk⟩ := hing
  have hlen : originalObjects.length ≠ 0 := by
    intro h
    rw [List.length_eq_zero] at h
    rw [h] at hu
    simp at hu
  have hhas : hasIngress originalObjects = true := by
    rw [hasIngress, List.any_eq_true]
    exact ⟨u, hu, by simpa using hk⟩
  unfold pipeline
  rcases hres : runIngress2Gateway env originalObjects args w with ⟨res, w1⟩
  rw [hres] at hrun
  simp only at hrun
  subst hrun
  simp [hlen, hhas, finalSet_eq]

/-- The scenario of the specification: a ConfigMap and an Ingress go in, the
converter answers with an HTTPRoute, the ConfigMap and the HTTPRoute go out. -/
theorem pipeline_emits_kept_then_converted_witness :
    pipeline stubEnv ⟨"", false, false⟩ [configMapDoc, ingressDoc]
        ["--providers=ingress-nginx"] stubWorld =
      emitObjects stubEnv (nonIngress [configMapDoc, ingressDoc] ++ [httpRouteDoc])
        (runIngress2Gateway stubEnv [configMapDoc, ingressDoc]
          ["--providers=ingress-nginx"] stubWorld).2 :=
  pipeline_emits_kept_then_converted stubEnv ⟨"", false, false⟩ [configMapDoc, ingressDoc]
    ["--providers=ingress-nginx"] stubWorld [httpRouteDoc]
    ⟨ingressDoc, by simp, rfl⟩ rfl

/-- C2, as stated, fails: after the scenario of the specification the final
set holds two documents that are not Ingress, the original set one. -/
theorem finalSet_gains_converted :
    (nonIngress (finalSet [configMapDoc, ingressDoc] [httpRouteDoc])).length = 2 ∧
      (nonIngress [configMapDoc, ingressDoc]).length = 1 ∧
      nonIngress (finalSet [configMapDoc, ingressDoc] [httpRouteDoc]) ≠
        nonIngress [configMapDoc, ingressDoc] := by
  refine ⟨by decide, by decide, ?_⟩
  intro h
  have h2 := congrArg List.length h
  revert h2
  decide

/-- C2, amended: the final set is the original documents that are not
Ingress, in their order, followed by the converted set; so its documents that
are not Ingress are those of the original set followed by those of the
converted set. -/
theorem finalSet_conservation (D C : List Unstructured) :
    nonIngress (finalSet D C) = nonIngress D ++ nonIngress C ∧
      (finalSet D C).take (nonIngress D).length = nonIngress D ∧
      (finalSet D C).drop (nonIngress D).length = C := by
  rw [finalSet_eq]
  refine ⟨?_, by simp, by simp⟩
  simp [nonIngress, List.filter_append]

/-! ## The no-op filter -/

theorem GetKind_ne_of_lookup (u : Unstructured)
    (h : u.Object.lookup "kind" ≠ some (Value.str "Ingress")) :
    u.GetKind ≠ "Ingress" := by
  unfold Unstructured.GetKind
  cases hl : u.Object.lookup "kind" with
  | none => simp
  | some v =>
    cases v with
    | str s =>
      intro hs
      simp only at hs
      rw [hl, hs] at h
      exact h rfl
    | _ => simp

theorem emitObjects_world (env : Env) (objs : List Unstructured) (w : World) :
    (emitObjects env objs w).2 =
        { w with stdout := (writeObjectsYAML env.Marshal objs w.stdout).2 } ∧
      ((emitObjects env objs w).1 = Exit.ok ↔
        (writeObjectsYAML env.Marshal objs w.stdout).1 = none) := by
  unfold emitObjects
  rcases writeObjectsYAML env.Marshal objs w.stdout with ⟨e, out⟩
  cases e with
  | none => simp
  | some err => simp

/-- C4: for a set that is not empty and in which no document holds the string
`Ingress` under `kind` (a missing or non-string kind does not match), the
pipeline starts no subprocess and touches no file, and what it writes to
standard output is what `writeObjectsYAML` writes for the original set. -/
theorem pipeline_without_ingress (env : Env) (fl : Flags)
    (originalObjects : List Unstructured) (args : List String) (w : World)
    (hne : originalObjects ≠ [])
    (hno : ∀ u ∈ originalObjects, u.Object.lookup "kind" ≠ some (Value.str "Ingress")) :
    (pipeline env fl originalObjects args w).2.trace = w.trace ∧
      (pipeline env fl originalObjects args w).2.files = w.files ∧
      (pipeline env fl originalObjects args w).2.stdout =
        (writeObjectsYAML env.Marshal originalObjects w.stdout).2 ∧
      ((pipeline env fl originalObjects args w).1 = Exit.ok ↔
        (writeObjectsYAML env.Marshal originalObjects w.stdout).1 = none) := by
  have hlen : originalObjects.length ≠ 0 := by
    intro h
    exact hne (List.length_eq_zero.mp h)
  have hhas : hasIngress originalObjects = false := by
    rw [hasIngress, List.any_eq_false]
    intro u hu
    simpa using GetKind_ne_of_lookup u (hno u hu)
  have hp : pipeline env fl originalObjects args w =
      emitObjects env originalObjects
        (w.logf "ingress-modernizr: warning: no Ingress resources found in input") := by
    unfold pipeline
    simp [hlen, hhas]
  have hw := emitObjects_world env originalObjects
    (w.logf "ingress-modernizr: warning: no Ingress resources found in input")
  rw [hp, hw.1]
  exact ⟨rfl, rfl, rfl, hw.2⟩

/-- Three documents, none an Ingress (one without a kind, one whose kind is
not a string): no event is recorded and the three are written in order. -/
theorem pipeline_without_ingress_witness :
    (pipeline stubEnv ⟨"", false, false⟩
        [configMapDoc, ⟨[("data", Value.null)]⟩, ⟨[("kind", Value.seq [Value.str "Ingress"])]⟩]
        ["--providers=ingress-nginx"] stubWorld).2.trace = [] ∧
      (pipeline stubEnv ⟨"", false, false⟩
        [configMapDoc, ⟨[("data", Value.null)]⟩, ⟨[("kind", Value.seq [Value.str "Ingress"])]⟩]
        ["--providers=ingress-nginx"] stubWorld).2.stdout.written =
        ["kind: ConfigMap\n", "---\n", "kind: \n", "---\n", "kind: \n"] :=
  have h := pipeline_without_ingress stubEnv ⟨"", false, false⟩
    [configMapDoc, ⟨[("data", Value.null)]⟩, ⟨[("kind", Value.seq [Value.str "Ingress"])]⟩]
    ["--providers=ingress-nginx"] stubWorld (by simp)
    (by
      intro u hu
      simp only [List.mem_cons, List.mem_singleton, List.not_mem_nil, or_false] at hu
      rcases hu with rfl | rfl | rfl
      · simp [configMapDoc, List.lookup]
      · simp [List.lookup]
      · simp [List.lookup])
  ⟨h.1, by rw [h.2.2.1]; rfl⟩

/-! ## The staging artifact -/

theorem stageAndConvert_files (env : Env) (allOriginal : List Unstructured)
    (extraArgs : List String) (tmpPath : String) (w : World)
    (hrun : ∀ bin args fs, (env.Run bin args fs).files = fs) :
    (stageAndConvert env allOriginal extraArgs tmpPath w).2.files =
      w.files.setContents tmpPath
        (String.join (writeObjectsYAML env.Marshal allOriginal ⟨[], env.tmpWriteErr⟩).2.written) := by
  unfold stageAndConvert
  rcases writeObjectsYAML env.Marshal allOriginal ⟨[], env.tmpWriteErr⟩ with ⟨e, f⟩
  cases e with
  | some err => rfl
  | none =>
    simp only
    cases env.tmpCloseErr with
    | some err => rfl
    | none =>
      simp only
      split
      · simp [World.emit, hrun]
      · split <;> simp [World.emit, hrun]

theorem exist_remove (fs : Files) (p : String) : (Files.remove fs p).exist p = false := by
  cases h : (Files.remove fs p).exist p with
  | false => rfl
  | true =>
    simp only [Files.exist, List.contains_iff_exists_mem_beq, List.mem_map] at h
    obtain ⟨q, ⟨f, hf, hfq⟩, hq⟩ := h
    simp only [Files.remove, List.mem_filter] at hf
    have h1 : f.1 ≠ p := by simpa using hf.2
    have h2 : p = q := by simpa using hq
    exact absurd (hfq.trans h2.symm) h1

theorem remove_setContents_cons (fs : Files) (p data : String) (h : fs.exist p = false) :
    Files.remove (Files.setContents ((p, "") :: fs) p data) p = fs := by
  have hmem : ∀ f ∈ fs, f.1 ≠ p := by
    intro f hf hfp
    have : fs.exist p = true := by
      simp only [Files.exist, List.contains_iff_exists_mem_beq]
      exact ⟨f.1, List.mem_map_of_mem Prod.fst hf, by simp [hfp]⟩
    rw [h] at this
    exact Bool.noConfusion this
  have hset : ∀ l : Files, (∀ f ∈ l, f.1 ≠ p) → Files.setContents l p data = l := by
    intro l hl
    unfold Files.setContents
    conv_rhs => rw [← List.map_id l]
    apply List.map_congr_left
    intro f hf
    simp [hl f hf]
  have hrem : ∀ l : Files, (∀ f ∈ l, f.1 ≠ p) → Files.remove l p = l := by
    intro l hl
    unfold Files.remove
    rw [List.filter_eq_self]
    intro f hf
    simpa using hl f hf
  have h1 : Files.setContents ((p, "") :: fs) p data = (p, data) :: fs := by
    have := hset fs hmem
    unfold Files.setContents at this ⊢
    simp [this]
  rw [h1]
  have h2 : Files.remove ((p, data) :: fs) p = Files.remove fs p := by
    simp [Files.remove]
  rw [h2, hrem fs hmem]

/-- C5, as stated, fails: the error of `os.Remove` is discarded, so when the
removal fails the call still returns the converted set and the temporary file
is still there; and a converter that writes a file of its own leaves the set
of files larger than it was, although the temporary file is gone. -/
theorem runIngress2Gateway_leaves_temp_behind :
    (runIngress2Gateway removeFailsEnv [configMapDoc, ingressDoc]
        ["--providers=ingress-nginx"] stubWorld).1.isOk = true ∧
      (runIngress2Gateway removeFailsEnv [configMapDoc, ingressDoc]
        ["--providers=ingress-nginx"] stubWorld).2.files.exist
        "/tmp/ingress-modernizr-1.yaml" = true ∧
      (runIngress2Gateway removeFailsEnv [configMapDoc, ingressDoc]
        ["--providers=ingress-nginx"] stubWorld).2.files.length = 2 ∧
      (runIngress2Gateway writingConverterEnv [configMapDoc, ingressDoc]
        ["--providers=ingress-nginx"] stubWorld).2.files.exist
        "/tmp/ingress-modernizr-1.yaml" = false ∧
      (runIngress2Gateway writingConverterEnv [configMapDoc, ingressDoc]
        ["--providers=ingress-nginx"] stubWorld).2.files.length = 2 ∧
      stubWorld.files.length = 1 := by
  decide

/-- C5, amended: whenever `runIngress2Gateway` created its temporary file,
the last thing it does, whichever way it returns, is call `os.Remove` on it;
when that call succeeds the file does not exist on return, and when moreover
the converter leaves the files as it found them, the files that exist are
those that existed before the call. -/
theorem runIngress2Gateway_removes_temp (env : Env) (allOriginal : List Unstructured)
    (a : List String) (w : World) (p : String)
    (hne : allOriginal.length ≠ 0)
    (hp : CreateTemp env.tempNames w.files = some p) :
    (∃ pre, (runIngress2Gateway env allOriginal a w).2.trace =
        pre ++ [Event.removeFile p]) ∧
      ((∀ fs, env.removeErr fs p = none) →
        (runIngress2Gateway env allOriginal a w).2.files.exist p = false) ∧
      ((∀ fs, env.removeErr fs p = none) →
        (∀ bin args fs, (env.Run bin args fs).files = fs) →
        (runIngress2Gateway env allOriginal a w).2.files = w.files) := by
  have hfresh : w.files.exist p = false := by
    have := List.find?_some hp
    simpa using this
  have hrun : runIngress2Gateway env allOriginal a w =
      ((stageAndConvert env allOriginal a p
          ({ w with files := (p, "") :: w.files }.emit (Event.createTemp p))).1,
        { (stageAndConvert env allOriginal a p
            ({ w with files := (p, "") :: w.files }.emit (Event.createTemp p))).2 with
          files := (Remove env.removeErr (stageAndConvert env allOriginal a p
            ({ w with files := (p, "") :: w.files }.emit (Event.createTemp p))).2.files p).2 }.emit
          (Event.removeFile p)) := by
    unfold runIngress2Gateway
    simp only [hne, if_false, hp]
  rw [hrun]
  refine ⟨⟨_, rfl⟩, ?_, ?_⟩
  · intro hrm
    simp only [World.emit, Remove, hrm]
    exact exist_remove _ p
  · intro hrm hconv
    have hs := stageAndConvert_files env allOriginal a p
      ({ w with files := (p, "") :: w.files }.emit (Event.createTemp p)) hconv
    simp only [World.emit] at hs ⊢
    simp only [Remove, hrm, hs]
    exact remove_setContents_cons w.files p _ hfresh

/-- The path on which the converter exits with a non-zero status: the call
fails, `os.Remove` succeeds, and the files are those there were before. -/
theorem runIngress2Gateway_removes_temp_witness :
    (runIngress2Gateway failingConverterEnv [configMapDoc, ingressDoc] [] stubWorld).2.files.exist
        "/tmp/ingress-modernizr-1.yaml" = false ∧
      (runIngress2Gateway failingConverterEnv [configMapDoc, ingressDoc] []
        stubWorld).2.files = stubWorld.files :=
  have h := runIngress2Gateway_removes_temp failingConverterEnv [configMapDoc, ingressDoc] []
    stubWorld "/tmp/ingress-modernizr-1.yaml" (by decide) (by decide)
  ⟨h.2.1 (fun _ => rfl), h.2.2 (fun _ => rfl) (fun _ _ _ => rfl)⟩

/-! ## Provider validation -/

theorem HasPrefix_iff (s pre : String) :
    HasPrefix s pre = true ↔ ∃ v : String, s = pre ++ v := by
  unfold HasPrefix
  rw [List.isPrefixOf_iff_prefix]
  constructor
  · rintro ⟨t, ht⟩
    refine ⟨⟨t⟩, ?_⟩
    apply String.ext
    simp [String.data_append, ht]
  · rintro ⟨v, rfl⟩
    exact ⟨v.data, by simp [String.data_append]⟩

theorem hasProviders_iff (a : List String) :
    hasProviders a = true ↔
      ∃ x ∈ a, (∃ v : String, x = "--providers=" ++ v) ∨ x = "--providers" := by
  unfold hasProviders
  rw [List.any_eq_true]
  constructor
  · rintro ⟨x, hx, hsel⟩
    refine ⟨x, hx, ?_⟩
    simp only [isProviderSelector, Bool.or_eq_true, decide_eq_true_eq] at hsel
    rcases hsel with h | h
    · exact Or.inl ((HasPrefix_iff x "--providers=").mp h)
    · exact Or.inr h
  · rintro ⟨x, hx, hsel⟩
    refine ⟨x, hx, ?_⟩
    simp only [isProviderSelector, Bool.or_eq_true, decide_eq_true_eq]
    rcases hsel with h | h
    · exact Or.inl ((HasPrefix_iff x "--providers=").mpr h)
    · exact Or.inr h

theorem stageAndConvert_trace_extends (env : Env) (allOriginal : List Unstructured)
    (extraArgs : List String) (tmpPath : String) (w : World) :
    ∃ ext, (stageAndConvert env allOriginal extraArgs tmpPath w).2.trace = w.trace ++ ext := by
  unfold stageAndConvert
  rcases writeObjectsYAML env.Marshal allOriginal ⟨[], env.tmpWriteErr⟩ with ⟨e, f⟩
  cases e with
  | some err => exact ⟨[], by simp⟩
  | none =>
    simp only
    cases env.tmpCloseErr with
    | some err => exact ⟨[], by simp⟩
    | none =>
      simp only
      split
      · exact ⟨_, rfl⟩
      · split <;> exact ⟨_, rfl⟩

theorem runIngress2Gateway_trace_extends (env : Env) (allOriginal : List Unstructured)
    (a : List String) (w : World) :
    ∃ ext, (runIngress2Gateway env allOriginal a w).2.trace = w.trace ++ ext := by
  unfold runIngress2Gateway
  by_cases hne : allOriginal.length = 0
  · exact ⟨[], by simp [hne]⟩
  · simp only [hne, if_false]
    cases hp : CreateTemp env.tempNames w.files with
    | none => exact ⟨[], by simp⟩
    | some p =>
      obtain ⟨ext, hext⟩ := stageAndConvert_trace_extends env allOriginal a p
        ({ w with files := (p, "") :: w.files }.emit (Event.createTemp p))
      refine ⟨Event.createTemp p :: ext ++ [Event.removeFile p], ?_⟩
      simp only [World.emit] at hext ⊢
      rw [hext]
      simp

theorem pipeline_trace_extends (env : Env) (fl : Flags)
    (originalObjects : List Unstructured) (args : List String) (w : World) :
    ∃ ext, (pipeline env fl originalObjects args w).2.trace = w.trace ++ ext := by
  unfold pipeline
  by_cases hlen : originalObjects.length = 0
  · refine ⟨[], ?_⟩
    simp only [hlen, if_true]
    split <;> simp [World.logf]
  · simp only [hlen, if_false]
    by_cases hhas : hasIngress originalObjects = true
    · simp only [hhas, not_true_eq_false, if_false]
      obtain ⟨ext, hext⟩ := runIngress2Gateway_trace_extends env originalObjects args w
      rcases hres : runIngress2Gateway env originalObjects args w with ⟨res, w1⟩
      rw [hres] at hext
      cases res with
      | error err => exact ⟨ext, hext⟩
      | ok converted =>
        refine ⟨ext, ?_⟩
        simp only
        rw [(emitObjects_world env _ w1).1]
        exact hext
    · refine ⟨[], ?_⟩
      rw [if_pos hhas, (emitObjects_world env _ _).1]
      simp [World.logf]

theorem readInput_trace (env : Env) (fl : Flags) (w : World) :
    ∃ ext, (readInput env fl w).2.trace =
      w.trace ++ (if fl.inputFile ≠ "" then Event.openInput fl.inputFile
        else Event.readInput) :: ext := by
  unfold readInput
  by_cases hf : fl.inputFile ≠ ""
  · simp only [if_pos hf]
    cases (w.emit (Event.openInput fl.inputFile)).files.lookup fl.inputFile with
    | none => exact ⟨[], by simp [World.emit]⟩
    | some data =>
      simp only
      cases readAllObjects env.Decode data with
      | error err => exact ⟨[Event.readInput], by simp [World.emit]⟩
      | ok objs => exact ⟨[Event.readInput], by simp [World.emit]⟩
  · simp only [if_neg hf]
    cases readAllObjects env.Decode w.stdin with
    | error err => exact ⟨[], by simp [World.emit]⟩
    | ok objs => exact ⟨[], by simp [World.emit]⟩

/-- C8: with neither `--help` nor `--version` given, the run ends in the
usage error of line 192, with nothing opened, read or written, exactly when
no forwarded argument starts with `--providers=` or is `--providers`; when
one does, the first thing the run does is open or read its input. -/
theorem run_provider_validation (env : Env) (fl : Flags) (a : List String) (w : World)
    (hh : fl.help = false) (hv : fl.version = false) :
    (run env fl a w = (Exit.fatal providersRequired, w) ↔
        ¬ ∃ x ∈ a, (∃ v : String, x = "--providers=" ++ v) ∨ x = "--providers") ∧
      ((∃ x ∈ a, (∃ v : String, x = "--providers=" ++ v) ∨ x = "--providers") →
        ∃ ext, (run env fl a w).2.trace =
          w.trace ++ (if fl.inputFile ≠ "" then Event.openInput fl.inputFile
            else Event.readInput) :: ext) := by
  have hread : hasProviders a = true →
      ∃ ext, (run env fl a w).2.trace =
        w.trace ++ (if fl.inputFile ≠ "" then Event.openInput fl.inputFile
          else Event.readInput) :: ext := by
    intro hsel
    unfold run
    simp only [hh, hv, hsel, not_true_eq_false, if_false, Bool.false_eq_true]
    obtain ⟨ext, hext⟩ := readInput_trace env fl w
    rcases hres : readInput env fl w with ⟨res, w1⟩
    rw [hres] at hext
    cases res with
    | error err => exact ⟨ext, hext⟩
    | ok objs =>
      obtain ⟨ext2, hext2⟩ := pipeline_trace_extends env fl objs a w1
      refine ⟨ext ++ ext2, ?_⟩
      simp only at hext ⊢
      rw [hext2, hext]
      simp
  constructor
  · constructor
    · intro hrun hsel
      obtain ⟨ext, hext⟩ := hread ((hasProviders_iff a).mpr hsel)
      rw [hrun] at hext
      have := congrArg List.length hext
      simp at this
    · intro hsel
      have hno : hasProviders a = false := by
        cases hb : hasProviders a with
        | false => rfl
        | true => exact absurd ((hasProviders_iff a).mp hb) hsel
      unfold run
      simp [hh, hv, hno]
  · intro hsel
    exact hread ((hasProviders_iff a).mpr hsel)

/-- With no provider selector the run stops at once and the world is as it
was; with `--providers` the run reads standard input first. -/
theorem run_provider_validation_witness :
    run stubEnv ⟨"", false, false⟩ ["--output=yaml"] stubWorld =
        (Exit.fatal providersRequired, stubWorld) ∧
      ∃ ext, (run stubEnv ⟨"", false, false⟩ ["--providers", "ingress-nginx"]
        stubWorld).2.trace = stubWorld.trace ++ Event.readInput :: ext :=
  ⟨(run_provider_validation stubEnv ⟨"", false, false⟩ ["--output=yaml"] stubWorld
      rfl rfl).1.mpr (fun h => by
        have := (hasProviders_iff ["--output=yaml"]).mpr h
        revert this
        decide),
    (run_provider_validation stubEnv ⟨"", false, false⟩ ["--providers", "ingress-nginx"]
      stubWorld rfl rfl).2 ⟨"--providers", by simp, Or.inr rfl⟩⟩

/-! ## Command line -/

/-- C9: the two invocations that the usage text of `main` documents are
stopped by `flag.Parse()`, which knows no flag `providers`: the process exits
with status 2 and nothing is forwarded.  Forwarding starts at the first
argument that is not a flag, or after `--`. -/
theorem main_rejects_documented_invocations (env : Env) (w : World) :
    main env ["--providers=ingress-nginx"] w =
        (Exit.flagError "flag provided but not defined: -providers", w.logf "usage") ∧
      main env ["--input-file=manifests.yaml", "--providers=ingress-nginx"] w =
        (Exit.flagError "flag provided but not defined: -providers", w.logf "usage") ∧
      Parse ⟨"", false, false⟩ ["--input-file=manifests.yaml", "--", "--providers=ingress-nginx"] =
        ParseOutcome.parsed ⟨"manifests.yaml", false, false⟩ ["--providers=ingress-nginx"] ∧
      Parse ⟨"", false, false⟩ ["print", "--providers=ingress-nginx"] =
        ParseOutcome.parsed ⟨"", false, false⟩ ["print", "--providers=ingress-nginx"] := by
  have h1 : Parse ⟨"", false, false⟩ ["--providers=ingress-nginx"] =
      ParseOutcome.failed "flag provided but not defined: -providers" := by decide
  have h2 : Parse ⟨"", false, false⟩ ["--input-file=manifests.yaml", "--providers=ingress-nginx"] =
      ParseOutcome.failed "flag provided but not defined: -providers" := by decide
  refine ⟨?_, ?_, by decide, by decide⟩
  · simp only [main, h1]
  · simp only [main, h2]

/-! ## Round trip -/

theorem readLoop_ok (raws : List Object) (objs : List Unstructured) :
    readLoop (raws.map Except.ok) objs =
      Except.ok (objs ++ (raws.filter (fun raw => raw.length ≠ 0)).map Unstructured.mk) := by
  induction raws generalizing objs with
  | nil => simp [readLoop]
  | cons raw rest ih =>
    by_cases h : raw.length = 0
    · simp [readLoop, h, ih]
    · simp [readLoop, h, ih]

theorem join_separated_cons (m m2 : String) (ms : List String) :
    String.join (separated (m :: m2 :: ms)) =
      m ++ "---\n" ++ String.join (separated (m2 :: ms)) := by
  apply String.ext
  simp [separated, String.data_join, String.data_append, List.flatMap_cons]

theorem decode_separated (env : Env) (hlib : DecodesMarshalled env) (os : List Object) :
    ∀ ms : List String, (∀ o ∈ os, o.length ≠ 0) →
      os.map env.Marshal = ms.map Except.ok →
      env.Decode (String.join (separated ms)) = os.map Except.ok := by
  induction os with
  | nil =>
    intro ms _ hm
    cases ms with
    | nil => simpa [separated, String.join] using hlib.empty
    | cons m ms => simp at hm
  | cons o rest ih =>
    intro ms hne hm
    cases ms with
    | nil => simp at hm
    | cons m ms =>
      simp only [List.map_cons, List.cons.injEq] at hm
      obtain ⟨ho, hrest⟩ := hm
      have hone : o.length ≠ 0 := hne o (by simp)
      have hrestne : ∀ x ∈ rest, x.length ≠ 0 := fun x hx => hne x (by simp [hx])
      cases rest with
      | nil =>
        cases ms with
        | nil =>
          have : String.join (separated [m]) = m := by
            apply String.ext
            simp [separated, String.data_join]
          rw [this, hlib.single o m hone ho]
          rfl
        | cons m2 ms => simp at hrest
      | cons o2 rest2 =>
        cases ms with
        | nil => simp at hrest
        | cons m2 ms2 =>
          rw [join_separated_cons,
            hlib.stream o m (o2 :: rest2) (m2 :: ms2) hone ho (by simp) hrestne hrest,
            ih (m2 :: ms2) hrestne hrest]
          rfl

/-- C3: for a document set without empty documents, each of which
serializes, and a YAML library that decodes its own marshalled maps (alone,
and one after the other across separator lines), `writeObjectsYAML` succeeds
and `readAllObjects` on the bytes it wrote succeeds and returns the same
documents, as many, in the same order. -/
theorem readAllObjects_roundtrip (env : Env) (D : List Unstructured) (ms : List String)
    (hdoc : ∀ u ∈ D, u.Object.length ≠ 0)
    (hm : D.map (fun u => env.Marshal u.Object) = ms.map Except.ok)
    (hlib : DecodesMarshalled env) :
    writeObjectsYAML env.Marshal D bufferWriter =
        (none, { bufferWriter with written := separated ms }) ∧
      readAllObjects env.Decode (encoded env D) = Except.ok D := by
  have hwrite : writeObjectsYAML env.Marshal D bufferWriter =
      (none, { bufferWriter with written := separated ms }) := by
    have h := writeObjectsFrom_zero env.Marshal D ms hm bufferWriter (fun _ _ => rfl)
    rw [writeObjectsYAML, h]
    simp [bufferWriter]
  refine ⟨hwrite, ?_⟩
  have hm2 : (D.map Unstructured.Object).map env.Marshal = ms.map Except.ok := by
    rw [← hm]
    simp
  have hdec := decode_separated env hlib (D.map Unstructured.Object) ms
    (by
      intro o ho
      obtain ⟨u, hu, rfl⟩ := List.mem_map.mp ho
      exact hdoc u hu) hm2
  have hkeep : ((D.map Unstructured.Object).filter (fun raw => raw.length ≠ 0)).map
      Unstructured.mk = D := by
    have hall : (D.map Unstructured.Object).filter (fun raw => raw.length ≠ 0) =
        D.map Unstructured.Object := by
      rw [List.filter_eq_self]
      intro o ho
      obtain ⟨u, hu, rfl⟩ := List.mem_map.mp ho
      simpa using hdoc u hu
    have hid : (Unstructured.mk ∘ Unstructured.Object) = id := rfl
    rw [hall, List.map_map, hid, List.map_id]
  rw [readAllObjects, encoded, hwrite]
  simp only
  rw [hdec, readLoop_ok, hkeep]
  rfl

theorem lineScan_line (body : List Char) (hbody : ∀ c ∈ body, c ≠ '\n') :
    ∀ (cs line : List Char) (doc : Object),
      lineScan (body ++ cs) line doc = lineScan cs (line ++ body) doc := by
  induction body with
  | nil => intro cs line doc; simp
  | cons c body ih =>
    intro cs line doc
    have hc : c ≠ '\n' := hbody c (by simp)
    have h := ih (fun x hx => hbody x (by simp [hx])) cs (line ++ [c]) doc
    have hstep : lineScan (c :: (body ++ cs)) line doc =
        lineScan (body ++ cs) (line ++ [c]) doc := by
      simp [lineScan, hc]
    rw [List.cons_append, hstep, h]
    simp

theorem span_colon (k rest : List Char) (hk : ∀ c ∈ k, c ≠ ':') :
    (k ++ ':' :: rest).span (fun c => c != ':') = (k, ':' :: rest) := by
  induction k with
  | nil => simp [List.span, List.span.loop]
  | cons c k ih =>
    have hc : c ≠ ':' := hk c (by simp)
    have h := ih (fun x hx => hk x (by simp [hx]))
    rw [List.span_eq_take_drop] at h ⊢
    simp only [Prod.mk.injEq] at h
    have hb : (c != ':') = true := by simpa using hc
    simp [List.takeWhile, List.dropWhile, hb, h.1, h.2]

theorem lineScan_entry (e : String × Value) (l : List Char) (he : lineOfEntry e = some l) :
    ∀ (cs : List Char) (doc : Object),
      lineScan (l ++ cs) [] doc = lineScan cs [] (doc ++ [e]) := by
  intro cs doc
  obtain ⟨k, v⟩ := e
  cases v with
  | str v =>
    simp only [lineOfEntry] at he
    split at he
    · rename_i hsafe
      simp only [Option.some.injEq] at he
      subst he
      simp only [Bool.and_eq_true, List.all_eq_true, bne_iff_ne, ne_eq] at hsafe
      obtain ⟨hk, hv⟩ := hsafe
      have hbody : ∀ c ∈ k.data ++ ':' :: ' ' :: v.data, c ≠ '\n' := by
        intro c hc
        rcases List.mem_append.mp hc with h | h
        · exact (hk c h).2
        · simp only [List.mem_cons] at h
          rcases h with rfl | rfl | h
          · decide
          · decide
          · exact hv c h
      have hscan := lineScan_line (k.data ++ ':' :: ' ' :: v.data) hbody ('\n' :: cs) [] doc
      have happ : k.data ++ ':' :: ' ' :: v.data ++ ['\n'] ++ cs =
          (k.data ++ ':' :: ' ' :: v.data) ++ '\n' :: cs := by simp
      rw [happ, hscan]
      have hsep : ([] ++ (k.data ++ ':' :: ' ' :: v.data) : List Char) ≠ ['-', '-', '-'] := by
        intro h
        have hmem : ':' ∈ ([] ++ (k.data ++ ':' :: ' ' :: v.data) : List Char) := by simp
        rw [h] at hmem
        revert hmem
        decide
      have hentry : entryOfLine ([] ++ (k.data ++ ':' :: ' ' :: v.data)) =
          some (k, Value.str v) := by
        simp only [List.nil_append, entryOfLine,
          span_colon k.data (' ' :: v.data) (fun c hc => (hk c hc).1)]
      simp only [lineScan, if_true, hsep, if_false, hentry]
    · simp at he
  | _ => simp [lineOfEntry] at he

theorem lineScan_object (o : Object) :
    ∀ (body : List Char), linesOfObject o = some body →
      ∀ (cs : List Char) (doc : Object),
        lineScan (body ++ cs) [] doc = lineScan cs [] (doc ++ o) := by
  induction o with
  | nil =>
    intro body h cs doc
    simp only [linesOfObject, Option.some.injEq] at h
    subst h
    simp
  | cons e es ih =>
    intro body h cs doc
    simp only [linesOfObject] at h
    cases hl : lineOfEntry e with
    | none => simp [hl] at h
    | some l =>
      cases hls : linesOfObject es with
      | none => simp [hl, hls] at h
      | some ls =>
        simp only [hl, hls, Option.some.injEq] at h
        subst h
        rw [List.append_assoc, lineScan_entry e l hl, ih ls hls]
        simp

theorem lineMarshal_ok (o : Object) (m : String) (h : lineMarshal o = Except.ok m) :
    linesOfObject o = some m.data := by
  unfold lineMarshal at h
  cases hl : linesOfObject o with
  | none => simp [hl] at h
  | some cs =>
    simp only [hl, Except.ok.injEq] at h
    subst h
    rfl

theorem lineCodec_lawful : DecodesMarshalled lineCodecEnv where
  empty := rfl
  single := by
    intro o m hne hm
    have hbody := lineMarshal_ok o m hm
    have h := lineScan_object o m.data hbody [] []
    show lineScan m.data [] [] = [Except.ok o]
    simp only [List.append_nil, List.nil_append] at h
    rw [h]
    simp [lineScan, hne]
  stream := by
    intro o m os ms hne hm _ _ _
    have hbody := lineMarshal_ok o m hm
    show lineScan (m ++ "---\n" ++ String.join (separated ms)).data [] [] =
      Except.ok o :: lineScan (String.join (separated ms)).data [] []
    have hdata : (m ++ "---\n" ++ String.join (separated ms)).data =
        m.data ++ ('-' :: '-' :: '-' :: '\n' :: (String.join (separated ms)).data) := by
      simp [String.data_append]
    rw [hdata, lineScan_object o m.data hbody]
    simp [lineScan]

/-- A ConfigMap and an Ingress, written and read back by a codec that parses
the bytes: the two documents come back as they were. -/
theorem readAllObjects_roundtrip_witness :
    encoded lineCodecEnv [configMapDoc, ingressDoc] =
        "apiVersion: v1\nkind: ConfigMap\n---\napiVersion: networking.k8s.io/v1\nkind: Ingress\n" ∧
      readAllObjects lineCodecEnv.Decode (encoded lineCodecEnv [configMapDoc, ingressDoc]) =
        Except.ok [configMapDoc, ingressDoc] :=
  ⟨by decide,
    (readAllObjects_roundtrip lineCodecEnv [configMapDoc, ingressDoc]
      ["apiVersion: v1\nkind: ConfigMap\n", "apiVersion: networking.k8s.io/v1\nkind: Ingress\n"]
      (by
        intro u hu
        simp only [List.mem_cons, List.mem_singleton, List.not_mem_nil, or_false] at hu
        rcases hu with rfl | rfl <;> decide)
      rfl lineCodec_lawful).2⟩

end IngressModernizr
